import Mathlib

/-!
# Verification of the shift-refactor `RefactorSession` core

This development is a shallow embedding of `src/refactor-session.ts` (the
`RefactorSession` class of the shift-refactor package): the mutation queue
and merge engine (`cleanup`), the session/subsession coordinator, the queue
operations (`replace`, `delete`, `insert`/`prepend`/`append`), the in-place
`rename`, the constructor validation, and the dirty-guarded `generate`.

Modelling conventions:

* JavaScript object identity is the key of every association in the source
  (`WeakMap`/`WeakSet` keyed by AST nodes).  Following the arena strategy the
  specification itself recommends, every modelled AST node carries a stable
  numeric `id`, and the replacement/insertion/deletion maps and the parent
  map are association lists keyed by those ids.
* The external collaborators (parser, scope analyzer, traverser, codegen) are
  not part of this repository; they are modelled from the spec's contracts
  (§4.1, §4.3, §6).  Each such definition says so in its doc comment.
* In-place mutation is modelled by explicit state passing: `cleanup` returns
  both the resulting roots and the post-traversal view of the *original*
  root objects (which coincide unless a root itself was replaced or removed),
  because the source rebuilds the parent map from `this.nodes` *before*
  assigning `this.nodes = result`.
-/

deriving instance DecidableEq for Except

namespace ShiftRefactor

/-- Constructor tags for the modelled Shift AST node kinds.  Only the kinds
the session logic inspects are modelled: `Script` (a `statements` container),
`VariableDeclarationStatement` (with its declarator list), `VariableDeclarator`,
`BindingIdentifier`, `IdentifierExpression`, `ExpressionStatement`,
`LiteralNumericExpression`, plus `jsNull`, the JavaScript `null`/`undefined`
value that the traverser writes into a non-array child position on removal. -/
inductive NTag where
  | script
  | varDeclStmt
  | declarator
  | bindingIdent
  | identExpr
  | exprStmt
  | litNum
  | jsNull
deriving DecidableEq, Repr

/-- A Shift AST node, in uniform arena form: a kind tag, a stable identity
`id` (standing for JavaScript object identity), a string field (the `kind` of
a variable declaration, or the `name` of an identifier), a numeric field (the
value of a numeric literal) and the list of child nodes.  For
`VariableDeclarationStatement` the intermediate `VariableDeclaration` wrapper
of shift-ast is flattened: `children` is directly `declaration.declarators`.
For `declarator` and `exprStmt` the children list holds the single object
field (`binding`, `expression`). -/
inductive Node where
  | mk (tag : NTag) (id : Nat) (str : String) (num : Nat) (children : List Node)
deriving Repr

mutual

def decEqNode : (a b : Node) → Decidable (a = b)
  | .mk t1 i1 s1 n1 c1, .mk t2 i2 s2 n2 c2 =>
    match decEq t1 t2, decEq i1 i2, decEq s1 s2, decEq n1 n2, decEqNodeList c1 c2 with
    | isTrue h1, isTrue h2, isTrue h3, isTrue h4, isTrue h5 =>
      isTrue (by rw [h1, h2, h3, h4, h5])
    | isFalse h1, _, _, _, _ => isFalse (by intro hh; cases hh; exact h1 rfl)
    | _, isFalse h2, _, _, _ => isFalse (by intro hh; cases hh; exact h2 rfl)
    | _, _, isFalse h3, _, _ => isFalse (by intro hh; cases hh; exact h3 rfl)
    | _, _, _, isFalse h4, _ => isFalse (by intro hh; cases hh; exact h4 rfl)
    | _, _, _, _, isFalse h5 => isFalse (by intro hh; cases hh; exact h5 rfl)

def decEqNodeList : (a b : List Node) → Decidable (a = b)
  | [], [] => isTrue rfl
  | [], _ :: _ => isFalse (by intro h; cases h)
  | _ :: _, [] => isFalse (by intro h; cases h)
  | a :: as, b :: bs =>
    match decEqNode a b, decEqNodeList as bs with
    | isTrue h1, isTrue h2 => isTrue (by rw [h1, h2])
    | isFalse h1, _ => isFalse (by intro hh; cases hh; exact h1 rfl)
    | _, isFalse h2 => isFalse (by intro hh; cases hh; exact h2 rfl)

end

instance : DecidableEq Node := decEqNode

/-- The JavaScript `null` value (also standing for `undefined`), as it can be
stored into a child position or into the managed `nodes` array by the
traverser's removal of a non-array child or of a root. -/
def nullNode : Node := .mk .jsNull 0 "" 0 []

/-- `Script(statements)` -/
def scriptN (id : Nat) (statements : List Node) : Node := .mk .script id "" 0 statements

/-- `VariableDeclarationStatement` with `declaration.kind = kind` and
`declaration.declarators = declarators` (wrapper flattened). -/
def varDeclStmtN (id : Nat) (kind : String) (declarators : List Node) : Node :=
  .mk .varDeclStmt id kind 0 declarators

/-- `VariableDeclarator(binding)` (the optional initializer is not modelled;
no session logic inspects it). -/
def declaratorN (id : Nat) (binding : Node) : Node := .mk .declarator id "" 0 [binding]

/-- `BindingIdentifier(name)` -/
def bindingIdentN (id : Nat) (name : String) : Node := .mk .bindingIdent id name 0 []

/-- `IdentifierExpression(name)` -/
def identExprN (id : Nat) (name : String) : Node := .mk .identExpr id name 0 []

/-- `ExpressionStatement(expression)` -/
def exprStmtN (id : Nat) (expression : Node) : Node := .mk .exprStmt id "" 0 [expression]

/-- `LiteralNumericExpression(value)` -/
def litNumN (id : Nat) (value : Nat) : Node := .mk .litNum id "" value []

/-- The stable identity of a node (stands for JavaScript object identity). -/
def nodeId : Node → Nat
  | .mk _ i _ _ _ => i

/-- The name field of an identifier-like node, `none` for every other kind. -/
def nodeName : Node → Option String
  | .mk .bindingIdent _ s _ _ => some s
  | .mk .identExpr _ s _ _ => some s
  | _ => none

/-- `util.isStatement` restricted to the modelled kinds: statements and
declarations are `VariableDeclarationStatement` and `ExpressionStatement`. -/
def isStatement : Node → Bool
  | .mk .varDeclStmt .. => true
  | .mk .exprStmt .. => true
  | _ => false

/-- Whether a node owns a `statements` array: the `'statements' in parent`
test of the cleanup visitor.  Among the modelled kinds only `Script`. -/
def hasStatementsField : Node → Bool
  | .mk .script .. => true
  | _ => false

/-- Tags whose children live in a JavaScript *array* field (`statements`,
`declarators`); the traverser removes such a child by splicing it out.  The
children of the other composite tags are plain object fields, which the
traverser "removes" by overwriting them with `null`. -/
def arrayChildrenTag : NTag → Bool
  | .script => true
  | .varDeclStmt => true
  | _ => false

/-- `m.get k` on an id-keyed association list (`WeakMap.get`). -/
def lookupA {α : Type} : List (Nat × α) → Nat → Option α
  | [], _ => none
  | (k', v) :: rest, k => if k' = k then some v else lookupA rest k

/-- `m.delete k` on an id-keyed association list (`WeakMap.delete`). -/
def eraseA {α : Type} : List (Nat × α) → Nat → List (Nat × α)
  | [], _ => []
  | (k', v) :: rest, k => if k' = k then rest else (k', v) :: eraseA rest k

/-- `m.set k v` on an id-keyed association list (`WeakMap.set`): overwrites
the binding when the key is present, appends otherwise. -/
def setA {α : Type} : List (Nat × α) → Nat → α → List (Nat × α)
  | [], k, v => [(k, v)]
  | (k', v') :: rest, k, v =>
    if k' = k then (k, v) :: rest else (k', v') :: setA rest k v

/-- `s.add k` on an id set (`WeakSet.add`): no-op when already present. -/
def addDel (dels : List Nat) (k : Nat) : List Nat :=
  if dels.contains k then dels else dels ++ [k]

/-- A pending insertion, as stored by `insert` (refactor-session.ts:290-293):
placement flag plus the statement to splice in. -/
structure Insertion where
  after : Bool
  statement : Node
deriving DecidableEq, Repr

/-- The portion of the pending-mutation state that the cleanup traversal
writes: the replacement and insertion maps.  The deletion set is only ever
*read* during cleanup (the visitor never removes ids from it), so it is
threaded separately as a read-only parameter. -/
structure MutState where
  replacements : List (Nat × Node)
  insertions : List (Nat × Insertion)
deriving DecidableEq, Repr

/-- The fate the `leave` visitor decides for a node: kept, replaced by a new
node, or removed from its parent's structure. -/
inductive Outcome where
  | keep
  | replaced (n : Node)
  | removed
deriving DecidableEq, Repr

/-- The `leave` visitor of `cleanup` (refactor-session.ts:372-400), applied to
a node whose children have already been processed (the traversal is
post-order).  Mirrors the source's branch order exactly:

1. a `VariableDeclarationStatement` whose declarator list has become empty is
   removed (`this.remove()` returns: no later branch runs, pending entries
   for this node stay queued);
2. a pending replacement is applied and its entry deleted (`return newNode`:
   the insertion and deletion branches do not run for this node);
3. a pending insertion is recorded for the enclosing statement list and its
   entry deleted, but only when the node is a statement and the parent owns a
   `statements` array; otherwise a debug line is logged and the entry stays;
4. a pending deletion removes the node; the source also calls
   `replacements.delete(node)` here, which can never find an entry because
   branch 2 would already have returned — it is mirrored verbatim anyway.

Returns the node (post-children view), its outcome, the insertion request for
the parent (if branch 3 fired), and the updated maps. -/
def leaveNode (dels : List Nat) (parentHasStmts : Bool) (st : MutState) (n : Node) :
    Node × Outcome × Option Insertion × MutState :=
  match n with
  | .mk .varDeclStmt _ _ _ [] => (n, .removed, none, st)
  | _ =>
    match lookupA st.replacements (nodeId n) with
    | some newNode =>
      (n, .replaced newNode, none,
        { st with replacements := eraseA st.replacements (nodeId n) })
    | none =>
      let (req, st) :=
        match lookupA st.insertions (nodeId n) with
        | some ins =>
          if isStatement n then
            if parentHasStmts then
              (some ins, { st with insertions := eraseA st.insertions (nodeId n) })
            else (none, st)
          else (none, st)
        | none => (none, st)
      if dels.contains (nodeId n) then
        (n, .removed, req, { st with replacements := eraseA st.replacements (nodeId n) })
      else (n, .keep, req, st)

mutual

/-- One step of the external tree-rewrite utility (shift-traverser's
`replace`), modelled from the spec: a post-order visit-and-optionally-
replace-or-remove walk (§4.3, §6).  Children are processed first (array
children with splice semantics, object-field children with null-on-removal
semantics), then the `leave` visitor above decides the node's own fate.
`parentHasStmts` records whether the parent owns a `statements` array, which
the source's insertion branch tests.  Replacement subtrees and spliced-in
statements are taken as-is and not re-visited in the same pass. -/
def traverseNode (dels : List Nat) (parentHasStmts : Bool) (st : MutState) :
    Node → Node × Outcome × Option Insertion × MutState
  | .mk tag i s n cs =>
    if arrayChildrenTag tag then
      let (cs', st') := processArrayChildren dels (tag == .script) st cs
      leaveNode dels parentHasStmts st' (.mk tag i s n cs')
    else
      let (cs', st') := processFieldChildren dels st cs
      leaveNode dels parentHasStmts st' (.mk tag i s n cs')

/-- Process the elements of an array child list (`statements`/`declarators`):
a removed child is spliced out, a replaced child is substituted, and an
insertion request from a child's leave branch splices the requested statement
immediately before or after that child (refactor-session.ts:385-387: the
splice happens at the anchor's current index, so it lands adjacent to the
anchor; the anchor itself is untouched by the splice).  `hasStmts` is whether
*this* list's owner is a `statements` owner, passed down as the children's
`parentHasStmts`. -/
def processArrayChildren (dels : List Nat) (hasStmts : Bool) (st : MutState) :
    List Node → List Node × MutState
  | [] => ([], st)
  | c :: rest =>
    let (c', oc, req, st1) := traverseNode dels hasStmts st c
    let here : List Node :=
      match oc with
      | .keep =>
        match req with
        | some ins => if ins.after then [c', ins.statement] else [ins.statement, c']
        | none => [c']
      | .replaced m => [m]
      | .removed =>
        match req with
        | some ins => [ins.statement]
        | none => []
    let (rest', st2) := processArrayChildren dels hasStmts st1 rest
    (here ++ rest', st2)

/-- Process object-field children (`expression`, `binding`): the traverser
cannot splice a non-array field, so a removal overwrites the field with
`null` (`nullNode`); an insertion request cannot arise here because a field
parent owns no `statements` array. -/
def processFieldChildren (dels : List Nat) (st : MutState) :
    List Node → List Node × MutState
  | [] => ([], st)
  | c :: rest =>
    let (c', oc, _req, st1) := traverseNode dels false st c
    let here : Node :=
      match oc with
      | .keep => c'
      | .replaced m => m
      | .removed => nullNode
    let (rest', st2) := processFieldChildren dels st1 rest
    (here :: rest', st2)

end

/-- `traverser.replace(node, { leave })` applied to one managed root
(refactor-session.ts:371).  The root's parent is `undefined`, so
`parentHasStmts` is false.  (Were an insertion queued on a statement root,
the source's `'statements' in parent` test would throw a `TypeError` on
`undefined`; no modelled scenario queues an insertion on a root.)  Returns
the post-traversal view of the original root object together with its
outcome. -/
def traverseRoot (dels : List Nat) (st : MutState) (n : Node) : Node × Outcome × MutState :=
  let (p, oc, _req, st') := traverseNode dels false st n
  (p, oc, st')

/-- `this.nodes.map(node => traverser.replace(node, ...))`: the cleanup
traversal over all managed roots, threading the mutation maps left to
right. -/
def cleanupCore (dels : List Nat) (st : MutState) :
    List Node → List (Node × Outcome) × MutState
  | [] => ([], st)
  | r :: rest =>
    let (p, oc, st') := traverseRoot dels st r
    let (prs, st'') := cleanupCore dels st' rest
    ((p, oc) :: prs, st'')

/-- The value `traverser.replace` returns for a root: the (in-place mutated)
root itself when kept, the replacement when the root was replaced, and the
JavaScript `null` left in the result array when the root was removed. -/
def rootResult : Node × Outcome → Node
  | (p, .keep) => p
  | (_, .replaced m) => m
  | (_, .removed) => nullNode

mutual

/-- Child→parent id pairs for every node below `n` (the node's own pair is
contributed by its parent's call). -/
def parentPairs : Node → List (Nat × Nat)
  | .mk _ i _ _ cs => parentPairsList i cs

def parentPairsList (parentId : Nat) : List Node → List (Nat × Nat)
  | [] => []
  | c :: rest => (nodeId c, parentId) :: (parentPairs c ++ parentPairsList parentId rest)

end

/-- `util.buildParentMap` — modelled from the spec (§4.1): one full traversal
of the managed roots recording each visited node's immediate parent, as a
child-id → parent-id association. -/
def buildParentMap (roots : List Node) : List (Nat × Nat) :=
  match roots with
  | [] => []
  | r :: rest => parentPairs r ++ buildParentMap rest

/-- A resolved variable of the scope analysis: its name and the identities of
its declaration-site and reference-site nodes (shift-scope's `Variable`,
with node references replaced by node ids). -/
structure ScopeVariable where
  name : String
  declarations : List Nat
  references : List Nat
deriving DecidableEq, Repr

/-- The scope lookup table cached in `this.lookupTable` (shift-scope's
`ScopeLookup`), reduced to its variable list. -/
structure ScopeLookup where
  variableList : List ScopeVariable
deriving DecidableEq, Repr

mutual

def collectBindingIdents : Node → List (Nat × String)
  | .mk .bindingIdent i s _ _ => [(i, s)]
  | .mk _ _ _ _ cs => collectBindingIdentsList cs

def collectBindingIdentsList : List Node → List (Nat × String)
  | [] => []
  | c :: rest => collectBindingIdents c ++ collectBindingIdentsList rest

end

mutual

def collectIdentExprs : Node → List (Nat × String)
  | .mk .identExpr i s _ _ => [(i, s)]
  | .mk _ _ _ _ cs => collectIdentExprsList cs

def collectIdentExprsList : List Node → List (Nat × String)
  | [] => []
  | c :: rest => collectIdentExprs c ++ collectIdentExprsList rest

end

/-- Modelled from the spec: the external scope analyzer (`shiftScope` +
`ScopeLookup`, §6) — `tree root -> root Scope exposing ... a node→Variable[]
lookup keyed by binding/reference identifier nodes`.  The model performs a
single-scope analysis: binding identifiers are declaration sites, identifier
expressions are reference sites, grouped into one variable per name.  Only
determinism and cachability of the table matter to the claims below, not the
lexical-scoping fine structure. -/
def shiftScopeAnalysis (root : Node) : ScopeLookup :=
  let decls := collectBindingIdents root
  let refs := collectIdentExprs root
  let names := ((decls ++ refs).map Prod.snd).dedup
  { variableList := names.map (fun nm =>
      { name := nm
        declarations := (decls.filter (fun p => p.2 == nm)).map Prod.fst
        references := (refs.filter (fun p => p.2 == nm)).map Prod.fst }) }

/-- The per-instance state of a `RefactorSession` (refactor-session.ts:56-73).
Every session object — global or subsession — owns all of these fields; a
subsession additionally holds a reference to its global session, modelled
below by the `GSub` pair.  `rootNode` is the optional `_root` field (set for
root sessions, absent for subsessions). -/
structure SessionState where
  nodes : List Node
  rootNode : Option Node
  dirty : Bool
  autoCleanup : Bool
  replacements : List (Nat × Node)
  insertions : List (Nat × Insertion)
  deletions : List Nat
  parentMap : List (Nat × Nat)
  lookupTable : Option ScopeLookup
deriving DecidableEq, Repr

/-- Errors surfaced by the session: `RefactorError` for the source's
`RefactorError` throws, `plainError` for its bare `Error` throws. -/
inductive SessionError where
  | refactorError (msg : String)
  | plainError (msg : String)
deriving DecidableEq, Repr

/-- The three constructor input shapes (`sourceOrNodes: string | Node |
Node[]`). -/
inductive SourceOrNodes where
  | source (text : String)
  | one (n : Node)
  | many (ns : List Node)

/-- `RefactorConfig` sans `parentSession` (the parent is passed explicitly to
`mkSubSession` below).  `autoCleanup?: boolean` is an optional field. -/
structure RefactorConfig where
  autoCleanup : Option Bool := none
deriving Repr

/-- The constructor's handling of `config.autoCleanup`
(refactor-session.ts:60,104): the field initializer sets `true`, then
`if (config.autoCleanup) this.autoCleanup = config.autoCleanup` assigns the
configured value only when it is truthy.  (Consequently a configured `false`
is never assigned.) -/
def applyConfigAutoCleanup (cfg : Option Bool) : Bool :=
  match cfg with
  | some b => if b then b else true
  | none => true

/-- The tail of the constructor shared by both paths
(refactor-session.ts:102-108): store the managed nodes, apply the config,
build this instance's own parent map over its own nodes
(`this.rebuildParentMap()`), and build this instance's own scope table over
the session root (`this.getLookupTable()`).  `sessionRoot` is what the `root`
getter resolves to: `_root` for a root session, the global session's root for
a subsession. -/
def finishConstruct (nodes : List Node) (rootField : Option Node) (sessionRoot : Node)
    (cfg : RefactorConfig) : SessionState :=
  { nodes := nodes
    rootNode := rootField
    dirty := false
    autoCleanup := applyConfigAutoCleanup cfg.autoCleanup
    replacements := []
    insertions := []
    deletions := []
    parentMap := buildParentMap nodes
    lookupTable := some (shiftScopeAnalysis sessionRoot) }

/-- The constructor's root-session path (refactor-session.ts:86-100, no
`config.parentSession`): source text is parsed (a parse failure is wrapped
into a `RefactorError`); a node array is rejected with a `RefactorError`; a
single node becomes `_root` and the one managed node.  `parse` is the
external parser (§6). -/
def mkRootSession (parse : String → Except String Node) (input : SourceOrNodes)
    (cfg : RefactorConfig) : Except SessionError SessionState :=
  match input with
  | .source text =>
    match parse text with
    | .error _ => .error (.refactorError "Could not parse passed source")
    | .ok tree => .ok (finishConstruct [tree] (some tree) tree cfg)
  | .many _ =>
    .error (.refactorError
      "Must initialize root session with a JavaScript source program (JS source or single Node)")
  | .one n => .ok (finishConstruct [n] (some n) n cfg)

/-- The constructor's subsession path (refactor-session.ts:77-85, with
`config.parentSession`): source text is rejected with a bare `Error`; a node
array is accepted as-is (the source filters out accidental strings, which the
typed model cannot contain); a single node becomes a one-element selection.
`_root` stays unset, so the `root` getter — and hence the subsession's own
`getLookupTable()` call at line 108 — resolves to the global session's root;
a global session without `_root` would make that getter throw its
`Error('why')`. -/
def mkSubSession (globalS : SessionState) (input : SourceOrNodes) (cfg : RefactorConfig) :
    Except SessionError SessionState :=
  match input with
  | .source _ => .error (.plainError "Can not initialize child RefactorSession with a new AST")
  | .many ns =>
    match globalS.rootNode with
    | none => .error (.plainError "why")
    | some r => .ok (finishConstruct ns none r cfg)
  | .one n =>
    match globalS.rootNode with
    | none => .error (.plainError "why")
    | some r => .ok (finishConstruct [n] none r cfg)

/-- `_queueDeletion`, global-session branch (refactor-session.ts:312-318):
mark dirty, add the node to the deletion set. -/
def queueDeletion (s : SessionState) (n : Node) : SessionState :=
  { s with dirty := true, deletions := addDel s.deletions (nodeId n) }

/-- `_queueReplacement`, global-session branch (refactor-session.ts:320-326):
mark dirty, map the node to its replacement (overwriting any earlier
replacement for the same node). -/
def queueReplacement (s : SessionState) (fromNode toNode : Node) : SessionState :=
  { s with dirty := true, replacements := setA s.replacements (nodeId fromNode) toNode }

/-- `cleanup`, global-session branch (refactor-session.ts:365-407): a no-op
when the session is not dirty; otherwise one traversal of the managed roots
applying all pending mutations, then — in the source's statement order —
discard the scope table, rebuild the parent map from `this.nodes` (still the
*old* root references, whose objects the traversal mutated in place: they
coincide with the results except for roots that were themselves replaced or
removed), clear the dirty flag, and only then assign `this.nodes = result`.
The deletion set is passed read-only: the visitor never removes ids from
it. -/
def cleanup (s : SessionState) : SessionState :=
  if !s.dirty then s
  else
    let res := cleanupCore s.deletions ⟨s.replacements, s.insertions⟩ s.nodes
    { s with
      lookupTable := none
      parentMap := buildParentMap (res.1.map Prod.fst)
      dirty := false
      nodes := res.1.map rootResult
      replacements := res.2.replacements
      insertions := res.2.insertions }

/-- `conditionalCleanup` (refactor-session.ts:360-363). -/
def conditionalCleanup (s : SessionState) : SessionState :=
  if s.autoCleanup then cleanup s else s

/-- `delete` (refactor-session.ts:164-170), with the selection already
resolved to an explicit node list (the external selector matcher `findNodes`
is the identity on explicit node/list arguments): queue a deletion for every
selected node, then `conditionalCleanup`. -/
def deleteOp (s : SessionState) (targets : List Node) : SessionState :=
  let s' := if targets.length > 0 then targets.foldl queueDeletion s else s
  conditionalCleanup s'

/-- The dirty-print error message (refactor-session.ts:533). -/
def dirtyPrintMsg : String :=
  "refactor .print() called with a dirty AST. This is almost always a bug. Call .cleanup() before printing."

/-- `generate` (refactor-session.ts:530-536), called without an argument:
fails fast when *this instance's* dirty flag is set; otherwise hands
`this.first()` to the external pretty-printer, modelled by returning the AST
that would be printed. -/
def generateS (s : SessionState) : Except SessionError Node :=
  if s.dirty then .error (.refactorError dirtyPrintMsg)
  else .ok (s.nodes.headD nullNode)

/-- What a replacer function may return for a node: a tree node, source text,
a promise (thenable), or anything else. -/
inductive ReplacerResult where
  | node (n : Node)
  | text (src : String)
  | promise
  | other

/-- The `Replacer` union: a literal node, a source-text fragment, or a
function from node to a result. -/
inductive Replacer where
  | node (n : Node)
  | text (src : String)
  | fn (f : Node → ReplacerResult)

/-- `util.copy` — a deep clone of a node.  At the value level a clone is the
value itself; the identity difference a JavaScript clone carries only matters
for the `replacement !== node` no-op test, see `replaceOne`. -/
def copyNode (n : Node) : Node := n

/-- `copy(replacementScript.statements[0])` when the parsed script may be
empty: JavaScript reads `undefined` from `statements[0]` and the clone of it
stays a non-node value, modelled by `nullNode`. -/
def copyFirstStatement : Node → Node
  | .mk .script _ _ _ (st :: _) => copyNode st
  | _ => nullNode

/-- `util.extractStatement` — modelled from the spec (§4.5, §7): narrow a
parsed fragment to its single statement, failing descriptively otherwise. -/
def extractStatement (tree : Node) : Except SessionError Node :=
  match tree with
  | .mk .script _ _ _ (st :: _) => .ok st
  | _ => .error (.refactorError "Could not extract a statement from the parsed replacement source")

/-- `util.extractExpression` — modelled from the spec (§4.5, §7): narrow a
parsed fragment to the expression of its single expression statement, failing
descriptively when the fragment resolves to the wrong syntactic category. -/
def extractExpression (tree : Node) : Except SessionError Node :=
  match tree with
  | .mk .script _ _ _ (.mk .exprStmt _ _ _ [e] :: _) => .ok e
  | _ => .error (.refactorError "Could not extract an expression from the parsed replacement source")

/-- The per-node body of the `nodes.map` inside `replace`
(refactor-session.ts:177-213).  `replacementScript` is the up-front parse of
a direct string replacer (line 175).  Mirrors the source:

* function replacer: a thenable result throws the async-misuse
  `RefactorError`; a node result is used as-is; a string result is parsed and
  narrowed per the target's category (statement/expression), the narrowing
  errors propagating; anything else throws the invalid-return-type
  `RefactorError`;
* literal node replacer: a clone is used;
* direct string replacer: for a statement target, a clone of the parsed
  script's first statement (JavaScript `undefined` — `nullNode` — when the
  script is empty); for an expression target, the first statement's
  expression *only if* that statement is an `ExpressionStatement` — otherwise
  `replacement` keeps its initial `null` value and **no error is raised**;
* finally, unless the computed replacement is the node itself, it is queued
  (even when it is `null`) and the node counts as replaced.

The source's `replacement !== node` identity test is modelled by value
disequality; the two differ only when a node is replaced by a distinct but
structurally identical clone of itself, which no claim exercises. -/
def replaceOne (parse : String → Except String Node) (replacementScript : Option Node)
    (replacer : Replacer) (s : SessionState) (node : Node) :
    Except SessionError (SessionState × Bool) :=
  (match replacer with
   | .fn f =>
     match f node with
     | .promise =>
       .error (.refactorError "Promise returned from replacer function, use .replaceAsync() instead.")
     | .node m => .ok m
     | .text src =>
       match parse src with
       | .error _ => .error (.refactorError "Could not parse replacement source")
       | .ok returnedTree =>
         if isStatement node then extractStatement returnedTree
         else extractExpression returnedTree
     | .other => .error (.refactorError "Invalid return type from replacement function")
   | .node m => .ok (copyNode m)
   | .text _ =>
     match replacementScript with
     | some scriptTree =>
       if isStatement node then .ok (copyFirstStatement scriptTree)
       else
         match scriptTree with
         | .mk .script _ _ _ (.mk .exprStmt _ _ _ [e] :: _) => .ok (copyNode e)
         | _ => .ok nullNode
     | none => .ok nullNode) >>= fun replacement =>
  if replacement ≠ node then .ok (queueReplacement s node replacement, true)
  else .ok (s, false)

/-- The `nodes.map` loop of `replace`, threading the session state and the
replaced count.  A thrown error aborts the call (in JavaScript, replacements
already queued for earlier nodes of the same call remain queued; the claims
below exercise single-target calls, where there are none). -/
def replaceList (parse : String → Except String Node) (replacementScript : Option Node)
    (replacer : Replacer) (s : SessionState) :
    List Node → Except SessionError (SessionState × Nat)
  | [] => .ok (s, 0)
  | node :: rest =>
    replaceOne parse replacementScript replacer s node >>= fun (s', queued) =>
    replaceList parse replacementScript replacer s' rest >>= fun (s'', count) =>
    .ok (s'', (if queued then 1 else 0) + count)

/-- `replace` (refactor-session.ts:172-217), with the selection already
resolved to an explicit node list: a direct string replacer is parsed up
front (a parse failure throws before anything is queued), each selected node
is processed by `replaceOne`, then `conditionalCleanup` runs and the count of
queued nodes is returned. -/
def replaceM (parse : String → Except String Node) (s : SessionState) (targets : List Node)
    (replacer : Replacer) : Except SessionError (SessionState × Nat) :=
  (match replacer with
   | .text src =>
     match parse src with
     | .error _ => .error (.refactorError "Could not parse passed source")
     | .ok tree => .ok (some tree)
   | _ => .ok none) >>= fun replacementScript =>
  replaceList parse replacementScript replacer s targets >>= fun (s', count) =>
  .ok (conditionalCleanup s', count)

/-- The `getInsertion` helper of `insert` (refactor-session.ts:273-283): a
function replacer's node result is used as-is and any other result is handed
to the parser (`parseScript(result).statements[0]`); a literal node replacer
is cloned; a string replacer is parsed and its first statement taken (the
source memoizes that parse across targets — value-identical for a pure
model). -/
def getInsertion (parse : String → Except String Node) (replacer : Replacer) (node : Node) :
    Except SessionError Node :=
  match replacer with
  | .fn f =>
    match f node with
    | .node m => .ok m
    | .text src =>
      match parse src with
      | .error _ => .error (.refactorError "Could not parse passed source")
      | .ok t => .ok (copyFirstStatement t)
    | _ => .error (.refactorError "Could not parse passed source")
  | .node m => .ok (copyNode m)
  | .text src =>
    match parse src with
    | .error _ => .error (.refactorError "Could not parse passed source")
    | .ok t => .ok (copyFirstStatement t)

/-- The `nodes.forEach` loop of `insert` (refactor-session.ts:285-294): a
non-statement anchor throws before anything changes; then the session is
marked dirty *before* the payload is computed and checked (so a payload
failure leaves the session dirty in JavaScript — the `Except` model discards
that partial write, which no claim observes); a non-statement payload throws;
otherwise the insertion is recorded for the anchor (the source stores the
result of a second `getInsertion` call, identical for pure replacers). -/
def insertList (parse : String → Except String Node) (replacer : Replacer) (after : Bool)
    (s : SessionState) : List Node → Except SessionError SessionState
  | [] => .ok s
  | node :: rest =>
    if !isStatement node then
      .error (.refactorError "Can only insert before or after Statements or Declarations")
    else
      let s1 : SessionState := { s with dirty := true }
      getInsertion parse replacer node >>= fun toInsert =>
      if !isStatement toInsert then
        .error (.refactorError "Will not insert anything but a Statement or Declaration")
      else
        insertList parse replacer after
          { s1 with insertions := setA s1.insertions (nodeId node) ⟨after, toInsert⟩ } rest

/-- `insert` (refactor-session.ts:266-297), global-session branch, with the
selection already resolved: queue an insertion per anchor, then
`conditionalCleanup`. -/
def insertOp (parse : String → Except String Node) (s : SessionState) (targets : List Node)
    (replacer : Replacer) (after : Bool) : Except SessionError SessionState :=
  insertList parse replacer after s targets >>= fun s' => .ok (conditionalCleanup s')

/-- `prepend` (refactor-session.ts:304-306): insert before. -/
def prependOp (parse : String → Except String Node) (s : SessionState) (targets : List Node)
    (replacer : Replacer) : Except SessionError SessionState :=
  insertOp parse s targets replacer false

/-- `append` (refactor-session.ts:308-310): insert after. -/
def appendOp (parse : String → Except String Node) (s : SessionState) (targets : List Node)
    (replacer : Replacer) : Except SessionError SessionState :=
  insertOp parse s targets replacer true

/-- Overwrite the name field of an identifier-like node (`node.name =
newName`); other kinds carry no modelled name field. -/
def setNodeName (nm : String) : Node → Node
  | .mk .bindingIdent i _ n cs => .mk .bindingIdent i nm n cs
  | .mk .identExpr i _ n cs => .mk .identExpr i nm n cs
  | n => n

/-- The per-node effect of `renameInPlace`: rename the node iff its identity
is among the variable's declaration/reference node ids. -/
def renameNode (ids : List Nat) (nm : String) (n : Node) : Node :=
  if ids.contains (nodeId n) then setNodeName nm n else n

mutual

/-- Apply a node-local function at every node of the tree (the structure is
untouched; only per-node fields may change). -/
def mapTree (f : Node → Node) : Node → Node
  | .mk t i s n cs => f (.mk t i s n (mapTreeList f cs))

def mapTreeList (f : Node → Node) : List Node → List Node
  | [] => []
  | c :: rest => mapTree f c :: mapTreeList f rest

end

/-- `renameInPlace` (refactor-session.ts:158-162) as a tree transformation:
a no-op when the lookup is absent or the new name is empty (falsy); otherwise
every declaration node and every reference node of the variable gets its
`name` field overwritten, in place (the source writes through the node
references; the id-keyed model rewrites the nodes with those ids). -/
def renameInPlaceT (lookup : Option ScopeVariable) (newName : String) (t : Node) : Node :=
  match lookup with
  | none => t
  | some v =>
    if newName = "" then t
    else mapTree (renameNode (v.declarations ++ v.references) newName) t

/-- `renameInPlace` at the session level: only the managed tree changes;
no mutation queue, dirty flag or cache is touched. -/
def renameInPlaceS (s : SessionState) (lookup : Option ScopeVariable) (newName : String) :
    SessionState :=
  { s with nodes := s.nodes.map (renameInPlaceT lookup newName) }

/-- A global session together with one subsession created from it.  The
source's subsession holds a `globalSession` reference and forwards every
mutating call through it (`if (this !== this.globalSession) return
this.globalSession.xxx(...)`); the pair makes both objects' states
explicit. -/
structure GSub where
  globalS : SessionState
  sub : SessionState
deriving DecidableEq, Repr

/-- `_queueDeletion` called on the subsession (refactor-session.ts:312-314):
forwarded to the global session; the subsession's own state is untouched. -/
def subQueueDeletion (w : GSub) (n : Node) : GSub :=
  { w with globalS := queueDeletion w.globalS n }

/-- `_queueReplacement` called on the subsession
(refactor-session.ts:320-322): forwarded to the global session. -/
def subQueueReplacement (w : GSub) (fromNode toNode : Node) : GSub :=
  { w with globalS := queueReplacement w.globalS fromNode toNode }

/-- `cleanup` called on the subsession (refactor-session.ts:366-368):
forwarded to the global session; the subsession's own fields — including its
own cached `lookupTable` and `parentMap` — are untouched. -/
def subCleanup (w : GSub) : GSub :=
  { w with globalS := cleanup w.globalS }

/-- `generate` called on the subsession (refactor-session.ts:530-536): *not*
forwarded — it reads the subsession's own dirty flag and own first node. -/
def subGenerate (w : GSub) : Except SessionError Node :=
  generateS w.sub

/-- `getLookupTable` (refactor-session.ts:328-334): return *this instance's*
cached table when present; otherwise run the external scope analysis over the
session root, cache the result on this instance, and return it.  (The derived
`scopeMap`/`scopeOwnerMap`/`variables` indices that `_rebuildScopeMap`
computes from the same table are not modelled separately.) -/
def getLookupTableS (s : SessionState) (sessionRoot : Node) : ScopeLookup × SessionState :=
  match s.lookupTable with
  | some t => (t, s)
  | none =>
    let t := shiftScopeAnalysis sessionRoot
    (t, { s with lookupTable := some t })

/-- `Except.isOk` spelled out, for stating that a constructor call
succeeds. -/
def isOkE {ε α : Type} : Except ε α → Bool
  | .ok _ => true
  | .error _ => false

/-! ## Per-node observations, for the rename theorems

`renameInPlace` must change the `name` field of the variable's
declaration/reference nodes and nothing else.  `infos` lists, for every node
of a tree in traversal order, the node's identity together with its name
field — exactly the data `renameInPlace` may touch (the tree structure is
untouched by construction of `mapTree`). -/

mutual

/-- `(id, name)` of every node of the tree, in pre-order. -/
def infos : Node → List (Nat × Option String)
  | .mk t i s v cs => (nodeId (.mk t i s v cs), nodeName (.mk t i s v cs)) :: infosList cs

def infosList : List Node → List (Nat × Option String)
  | [] => []
  | c :: rest => infos c ++ infosList rest

end

/-- The effect of a rename on one node's observation: a node whose identity
is among the variable's declaration/reference ids has its name overwritten
(when it carries one); every other node is untouched. -/
def renameInfo (ids : List Nat) (nm : String) (p : Nat × Option String) :
    Nat × Option String :=
  if ids.contains p.1 then (p.1, p.2.map (fun _ => nm)) else p

/-! ## Concrete fixtures

A managed script with the statement list `[A, B, C]` (`a; b; c;`), the
statements to insert (`X`, `Y`), a replacement statement `R`, and a
replacement root holding the single statement `D`.  Ids are arbitrary but
distinct, standing for the distinct object identities. -/

def stmtA : Node := exprStmtN 10 (identExprN 11 "a")

def stmtB : Node := exprStmtN 20 (identExprN 21 "b")

def stmtC : Node := exprStmtN 30 (identExprN 31 "c")

def stmtX : Node := exprStmtN 40 (identExprN 41 "x")

def stmtY : Node := exprStmtN 50 (identExprN 51 "y")

def stmtD : Node := exprStmtN 60 (identExprN 61 "d")

def stmtR : Node := exprStmtN 70 (identExprN 71 "r")

def script0 : Node := scriptN 1 [stmtA, stmtB, stmtC]

def newRoot : Node := scriptN 2 [stmtD]

/-- A parser stand-in for scenarios whose replacers are literal nodes: it is
never consulted. -/
def noParse : String → Except String Node := fun _ => .error "no parse in this scenario"

/-- The root session over `script0` with default config — the result of
`new RefactorSession(script0)`. -/
def baseSession : SessionState := finishConstruct [script0] (some script0) script0 {}

example : mkRootSession noParse (.one script0) {} = .ok baseSession := rfl

/-- Statement `B` queued *both* for replacement (by `R`) and for deletion,
via the public `_queueReplacement`/`_queueDeletion` methods (which never
auto-commit). -/
def sBothQueued : SessionState :=
  queueDeletion (queueReplacement baseSession stmtB stmtR) stmtB

/-- Statement `B` queued for deletion only. -/
def sDeleted : SessionState := queueDeletion baseSession stmtB

/-- Statement `B` queued for replacement only. -/
def sReplaced : SessionState := queueReplacement baseSession stmtB stmtR

/-- An insertion of `X` after `B` pending in the queue (the state `append`
builds just before its `conditionalCleanup`, reachable directly whenever
auto-cleanup is off at runtime). -/
def sInsQueued : SessionState :=
  { baseSession with dirty := true, insertions := [(nodeId stmtB, ⟨true, stmtX⟩)] }

/-- The session constructed with `{ autoCleanup: false }`. -/
def acFalseSession : SessionState :=
  finishConstruct [script0] (some script0) script0 ⟨some false⟩

/-- The managed root itself queued for replacement by `newRoot`. -/
def sRootRepl : SessionState := queueReplacement baseSession script0 newRoot

/-- The subsession `baseSession.subSession(stmtB)` — its own parent map and
its own scope table are built by its constructor. -/
def sub0 : SessionState := finishConstruct [stmtB] none script0 {}

/-- Root session plus subsession, then: queue a deletion *via the
subsession*, commit *via the subsession* (both forward to the global
session). -/
def w2 : GSub := subCleanup (subQueueDeletion ⟨baseSession, sub0⟩ stmtB)

/-- The external parser's output for the source text `"let x = 1"`: a script
whose single statement is a variable declaration — not an expression
statement.  (The initializer is irrelevant to every consumer modelled
here.) -/
def parseLetX : String → Except String Node := fun _ =>
  .ok (scriptN 90 [varDeclStmtN 91 "let" [declaratorN 92 (bindingIdentN 93 "x")]])

/-- `baseSession` with auto-cleanup switched off at runtime (the field is
public in the source), so that queued mutations stay visible. -/
def sessionNoAuto : SessionState := { baseSession with autoCleanup := false }

/-- A tree with a declaration and a reference of the variable `a`
(`let a; a;`) plus an unrelated statement, for the rename scenario. -/
def scriptV : Node :=
  scriptN 80
    [varDeclStmtN 81 "let" [declaratorN 82 (bindingIdentN 83 "a")],
     exprStmtN 84 (identExprN 85 "a"),
     exprStmtN 86 (identExprN 87 "q")]

/-- The resolved variable `a` of `scriptV`: declared at node 83, referenced
at node 85. -/
def varA : ScopeVariable := { name := "a", declarations := [83], references := [85] }

/-! ## Supporting lemmas -/

/-- Setting a key in an id-keyed map makes it look up to the set value. -/
theorem lookupA_setA_self {α : Type} (m : List (Nat × α)) (k : Nat) (v : α) :
    lookupA (setA m k v) k = some v := by
  induction m with
  | nil => simp [setA, lookupA]
  | cons hd tl ih =>
    obtain ⟨k', v'⟩ := hd
    by_cases h : k' = k
    · simp [setA, h, lookupA]
    · simp [setA, h, lookupA, ih]

/-- Adding an id to the deletion set makes it a member. -/
theorem mem_addDel (d : List Nat) (k : Nat) : k ∈ addDel d k := by
  unfold addDel
  split
  · exact List.mem_of_elem_eq_true (by assumption)
  · simp

/-- `cleanup` never changes the deletion set: the `leave` visitor only reads
it (no branch of refactor-session.ts:372-400 removes an id from `deletions`,
and the epilogue at lines 402-406 does not reset it). -/
theorem cleanup_deletions (s : SessionState) : (cleanup s).deletions = s.deletions := by
  by_cases h : s.dirty <;> simp [cleanup, h]

/-- `cleanup` on a dirty session clears the dirty flag. -/
theorem cleanup_dirty (s : SessionState) (h : s.dirty = true) : (cleanup s).dirty = false := by
  simp [cleanup, h]

/-- When every root's traversal outcome is `keep`, the in-place view of the
old roots coincides with the traversal results. -/
theorem map_fst_eq_map_rootResult (prs : List (Node × Outcome))
    (h : ∀ pr ∈ prs, pr.2 = Outcome.keep) :
    prs.map Prod.fst = prs.map rootResult := by
  induction prs with
  | nil => rfl
  | cons hd tl ih =>
    obtain ⟨p, oc⟩ := hd
    have h1 : oc = Outcome.keep := h (p, oc) (List.mem_cons_self _ _)
    subst h1
    have ih' := ih (fun pr hpr => h pr (List.mem_cons_of_mem _ hpr))
    rw [List.map_cons, List.map_cons, ih']
    rfl

mutual

/-- Renaming is a node-local map: the `(id, name)` observations of the
renamed tree are the pointwise-renamed observations of the original tree. -/
theorem infos_mapTree_rename (ids : List Nat) (nm : String) :
    (t : Node) → infos (mapTree (renameNode ids nm) t) = (infos t).map (renameInfo ids nm)
  | .mk tg i s v cs => by
    have hcs := infosList_mapTreeList_rename ids nm cs
    cases tg <;>
      simp [mapTree, renameNode, setNodeName, infos, nodeId, nodeName, renameInfo, hcs] <;>
      split <;> simp [infos, nodeId, nodeName, infosList, hcs]

theorem infosList_mapTreeList_rename (ids : List Nat) (nm : String) :
    (cs : List Node) →
      infosList (mapTreeList (renameNode ids nm) cs) = (infosList cs).map (renameInfo ids nm)
  | [] => by simp [mapTreeList, infosList]
  | c :: rest => by
    have h1 := infos_mapTree_rename ids nm c
    have h2 := infosList_mapTreeList_rename ids nm rest
    simp [mapTreeList, infosList, h1, h2]

end

/-! ## Claim theorems -/

/-- C1 — the claim asserts deletion precedence: a node queued both for
replacement and deletion is removed by the commit and the replacement never
appears.  The code does the opposite: the `leave` visitor checks the
replacement map *first* and returns the replacement, so the deletion branch
(which would discard the replacement, refactor-session.ts:396-398) never
runs for such a node.  Committing with `B` queued for replacement by `R`
*and* for deletion yields the tree `[A, R, C]` — `R` is present and `B`'s
deletion was ignored (it is still pending in the deletion set). -/
theorem c1_commit_replaces_despite_queued_deletion :
    (cleanup sBothQueued).nodes = [scriptN 1 [stmtA, stmtR, stmtC]]
    ∧ (cleanup sBothQueued).deletions = [nodeId stmtB]
    ∧ (cleanup sBothQueued).replacements = [] := by decide

/-- C2 counterexample — a subsession does *not* use the global session's
parent index and scope table: its constructor builds and caches its own
(refactor-session.ts:106-108 run on every instance).  Concretely,
`baseSession.subSession(B)` yields `sub0` whose own parent map differs from
the global one; after a deletion and commit forwarded through the
subsession, the global session's scope table is invalidated (`none`) while
the subsession still holds its stale private copy, and a subsession lookup
(`getLookupTable`, used by `rename`/`lookupVariable`) reads that private
copy. -/
theorem c2_subsession_builds_own_caches :
    mkSubSession baseSession (.one stmtB) {} = .ok sub0
    ∧ sub0.parentMap ≠ baseSession.parentMap
    ∧ w2.sub.lookupTable = some (shiftScopeAnalysis script0)
    ∧ w2.globalS.lookupTable = none
    ∧ w2.sub.lookupTable ≠ w2.globalS.lookupTable
    ∧ (getLookupTableS w2.sub script0).1 = shiftScopeAnalysis script0 := by decide

/-- C2 as amended — the *pending mutation maps* are genuinely shared: every
queueing call on a subsession forwards to the global session (adding to the
global deletion set / replacement map and marking the global session dirty)
and leaves the subsession's state untouched, and `cleanup` on a subsession
likewise only changes the global session.  But the parent index and the
scope table are per-instance: the subsession constructor builds its own, and
a global commit does not invalidate the subsession's copies (shown on the
concrete scenario of the counterexample). -/
theorem c2_amended_queue_shared_caches_private :
    (∀ (w : GSub) (n : Node),
      nodeId n ∈ (subQueueDeletion w n).globalS.deletions
      ∧ (subQueueDeletion w n).globalS.dirty = true
      ∧ (subQueueDeletion w n).sub = w.sub)
    ∧ (∀ (w : GSub) (a b : Node),
      lookupA (subQueueReplacement w a b).globalS.replacements (nodeId a) = some b
      ∧ (subQueueReplacement w a b).globalS.dirty = true
      ∧ (subQueueReplacement w a b).sub = w.sub)
    ∧ (∀ w : GSub, (subCleanup w).sub = w.sub)
    ∧ w2.sub.lookupTable = some (shiftScopeAnalysis script0)
    ∧ w2.globalS.lookupTable = none := by
  refine ⟨fun w n => ⟨mem_addDel _ _, rfl, rfl⟩,
          fun w a b => ⟨lookupA_setA_self _ _ _, rfl, rfl⟩,
          fun w => rfl, by decide, by decide⟩

/-- C3 counterexample — the claim asserts that an applied deletion is
removed from the deletion set and that all three maps are clear after the
traversal.  Committing a session whose only pending mutation is the deletion
of `B` does delete `B` from the tree, yet `B`'s id is still in the deletion
set afterwards: no branch of the visitor (refactor-session.ts:372-400) and
nothing in the commit epilogue ever removes it. -/
theorem c3_applied_deletion_stays_in_set :
    (cleanup sDeleted).nodes = [scriptN 1 [stmtA, stmtC]]
    ∧ (cleanup sDeleted).deletions = [nodeId stmtB] := by decide

/-- C3 as amended — applied replacements and insertions *are* removed from
their maps during the traversal (shown on concrete commits that apply one of
each), but the deletion set survives every commit unchanged: `cleanup`
preserves it verbatim, so an applied deletion remains queued. -/
theorem c3_amended_deletion_set_survives_commit :
    (∀ s : SessionState, (cleanup s).deletions = s.deletions)
    ∧ (cleanup sReplaced).replacements = []
    ∧ (cleanup sReplaced).nodes = [scriptN 1 [stmtA, stmtR, stmtC]]
    ∧ (cleanup sInsQueued).insertions = []
    ∧ (cleanup sInsQueued).nodes = [scriptN 1 [stmtA, stmtB, stmtX, stmtC]]
    ∧ (cleanup sDeleted).deletions = [nodeId stmtB] :=
  ⟨cleanup_deletions, by decide, by decide, by decide, by decide, by decide⟩

/-- C4 — the claim says constructing with auto-cleanup disabled makes
mutating calls only queue and leave the session dirty.  The constructor line
`if (config.autoCleanup) this.autoCleanup = config.autoCleanup`
(refactor-session.ts:104) assigns only truthy values, so `{ autoCleanup:
false }` is silently ignored: the session keeps `autoCleanup = true`, and
`delete(B)` commits immediately — afterwards the session is clean and `B` is
already gone from the tree. -/
theorem c4_autocleanup_false_ignored :
    mkRootSession noParse (.one script0) ⟨some false⟩ = .ok acFalseSession
    ∧ acFalseSession.autoCleanup = true
    ∧ (deleteOp acFalseSession [stmtB]).dirty = false
    ∧ (deleteOp acFalseSession [stmtB]).nodes = [scriptN 1 [stmtA, stmtC]] := by decide

/-- C5 counterexample — the claim asserts the parent index is rebuilt
against the tree that results from the commit, covering every node reachable
from the new roots.  `cleanup` calls `rebuildParentMap()` *before* assigning
`this.nodes = result` (refactor-session.ts:403-405), i.e. over the old root
references.  When the managed root itself is queued for replacement, the
committed tree is the new root, but the rebuilt index describes the old
root's subtree: the new root's child (id 60) has no entry, and the index
differs from a rebuild over the post-commit nodes. -/
theorem c5_parent_map_stale_after_root_replacement :
    (cleanup sRootRepl).nodes = [newRoot]
    ∧ lookupA (cleanup sRootRepl).parentMap 60 = none
    ∧ (cleanup sRootRepl).parentMap ≠ buildParentMap (cleanup sRootRepl).nodes := by decide

/-- C5 as amended — the parent map is rebuilt during commit from the old
root references, which the traversal mutated in place; whenever no managed
root is itself replaced or removed (every root outcome is `keep`), those
references *are* the post-commit tree, so the rebuilt index equals a rebuild
over the post-commit nodes and no stale index is ever consulted. -/
theorem c5_amended_parent_map_correct_when_roots_kept (s : SessionState)
    (hd : s.dirty = true)
    (hk : ∀ pr ∈ (cleanupCore s.deletions ⟨s.replacements, s.insertions⟩ s.nodes).1,
      pr.2 = Outcome.keep) :
    (cleanup s).parentMap = buildParentMap (cleanup s).nodes := by
  simp only [cleanup, hd, Bool.not_true, Bool.false_eq_true, if_false]
  rw [map_fst_eq_map_rootResult _ hk]

/-- C5 witness — the amended theorem applied to the concrete commit that
deletes statement `B` (no root is replaced or removed there). -/
theorem c5_amended_parent_map_correct_when_roots_kept_witness :
    sDeleted.dirty = true
    ∧ (cleanup sDeleted).parentMap = buildParentMap (cleanup sDeleted).nodes :=
  ⟨by decide, c5_amended_parent_map_correct_when_roots_kept sDeleted (by decide) (by decide)⟩

/-- C6 counterexample — the claim asserts every replacement value of the
wrong syntactic category raises a descriptive error and queues nothing.  For
a *direct string* replacer against an expression target, the source only
assigns a replacement when the parsed script's first statement is an
`ExpressionStatement` (refactor-session.ts:202-204); otherwise `replacement`
keeps its initial `null` and the tail of the loop queues that `null`
(`null !== node`) and counts the node as replaced.  Replacing the identifier
expression `b` by the text `"let x = 1"` returns `ok` with one queued `null`
replacement — no error is raised. -/
theorem c6_wrong_category_string_queues_null_silently :
    (replaceM parseLetX sessionNoAuto [identExprN 21 "b"] (.text "let x = 1")).map
        (fun r => (r.1.replacements, r.1.dirty, r.2))
      = .ok ([(nodeId (identExprN 21 "b"), nullNode)], true, 1) := by decide

/-- C6 as amended — for *function* replacers the claim holds: a result that
is neither node nor string raises the descriptive invalid-return-type
`RefactorError` and a thenable raises the async-misuse `RefactorError`, in
both cases before anything is queued for that node (the call aborts); a
direct string replacer is parsed up front so unparseable text also fails
before queuing; but a direct string replacer that resolves to the wrong
category for an expression target raises nothing — a `null` replacement is
silently queued (concrete conjunct). -/
theorem c6_amended_replacer_error_surface :
    (∀ (parse : String → Except String Node) (s : SessionState) (n : Node)
        (f : Node → ReplacerResult),
      f n = ReplacerResult.other →
      replaceM parse s [n] (.fn f)
        = .error (.refactorError "Invalid return type from replacement function"))
    ∧ (∀ (parse : String → Except String Node) (s : SessionState) (n : Node)
        (f : Node → ReplacerResult),
      f n = ReplacerResult.promise →
      replaceM parse s [n] (.fn f)
        = .error (.refactorError
          "Promise returned from replacer function, use .replaceAsync() instead."))
    ∧ (replaceM parseLetX sessionNoAuto [identExprN 21 "b"] (.text "let x = 1")).map
        (fun r => (r.1.replacements, r.2))
      = .ok ([(nodeId (identExprN 21 "b"), nullNode)], 1) := by
  refine ⟨fun parse s n f h => ?_, fun parse s n f h => ?_, by decide⟩
  · simp only [replaceM, replaceList, replaceOne, h]
    rfl
  · simp only [replaceM, replaceList, replaceOne, h]
    rfl

/-- C6 witness — the amended theorem applied to a concrete replacer function
that returns an invalid (non-node, non-string) value for `B`. -/
theorem c6_amended_replacer_error_surface_witness :
    (fun (_ : Node) => ReplacerResult.other) stmtB = ReplacerResult.other
    ∧ replaceM noParse baseSession [stmtB] (.fn (fun _ => ReplacerResult.other))
      = .error (.refactorError "Invalid return type from replacement function") :=
  ⟨rfl, c6_amended_replacer_error_surface.1 noParse baseSession stmtB
    (fun _ => ReplacerResult.other) rfl⟩

/-- C7 — insertion ordering: on the managed statement list `[A, B, C]`,
appending `X` after anchor `B` and committing yields `[A, B, X, C]`, and
prepending `Y` before `B` yields `[A, Y, B, C]`; in both results the anchor
`B` itself is still present (the splice at refactor-session.ts:385-387 only
inserts, and the insertion entry is consumed). -/
theorem c7_insertion_ordering :
    (appendOp noParse baseSession [stmtB] (.node stmtX)).map (fun s => s.nodes)
      = .ok [scriptN 1 [stmtA, stmtB, stmtX, stmtC]]
    ∧ (prependOp noParse baseSession [stmtB] (.node stmtY)).map (fun s => s.nodes)
      = .ok [scriptN 1 [stmtA, stmtY, stmtB, stmtC]] := by decide

/-- C8 — `renameInPlace` applied to a resolved variable with a non-empty new
name rewrites, immediately and in place, exactly the variable's declaration
and reference nodes: the per-node `(id, name)` observations of the renamed
tree are the pointwise image of the original ones, where a node whose id is
among the variable's declaration/reference ids gets its name field set to
the new name and every other node is unchanged; with an absent lookup or an
empty (falsy) new name the tree is untouched; and at the session level the
mutation queue, dirty flag and caches are never touched (rename does not go
through the queue). -/
theorem c8_rename_in_place (t : Node) (v : ScopeVariable) (nm : String) (hnm : nm ≠ "") :
    infos (renameInPlaceT (some v) nm t)
      = (infos t).map (renameInfo (v.declarations ++ v.references) nm)
    ∧ (∀ p ∈ infos t, ((v.declarations ++ v.references).contains p.1) = false →
        renameInfo (v.declarations ++ v.references) nm p = p)
    ∧ (∀ p ∈ infos t, ((v.declarations ++ v.references).contains p.1) = true →
        renameInfo (v.declarations ++ v.references) nm p = (p.1, p.2.map (fun _ => nm)))
    ∧ renameInPlaceT none nm t = t
    ∧ (∀ (t' : Node) (v' : ScopeVariable), renameInPlaceT (some v') "" t' = t')
    ∧ (∀ s : SessionState,
        (renameInPlaceS s (some v) nm).replacements = s.replacements
        ∧ (renameInPlaceS s (some v) nm).insertions = s.insertions
        ∧ (renameInPlaceS s (some v) nm).deletions = s.deletions
        ∧ (renameInPlaceS s (some v) nm).dirty = s.dirty
        ∧ (renameInPlaceS s (some v) nm).parentMap = s.parentMap
        ∧ (renameInPlaceS s (some v) nm).lookupTable = s.lookupTable) := by
  refine ⟨?_, fun p hp h => by unfold renameInfo; rw [h]; simp,
    fun p hp h => by unfold renameInfo; rw [h]; simp,
    rfl, fun t' v' => by simp [renameInPlaceT], fun s => ⟨rfl, rfl, rfl, rfl, rfl, rfl⟩⟩
  simp [renameInPlaceT, hnm, infos_mapTree_rename]

/-- C8 witness — the rename theorem applied to the concrete tree
`let a; a; q;` renaming the variable `a` to `z`. -/
theorem c8_rename_in_place_witness :
    ("z" : String) ≠ ""
    ∧ infos (renameInPlaceT (some varA) "z" scriptV)
      = (infos scriptV).map (renameInfo (varA.declarations ++ varA.references) "z") :=
  ⟨by decide, (c8_rename_in_place scriptV varA "z" (by decide)).1⟩

/-- C9 counterexample — the claim asserts that for *every* session, calling
the pretty-printer after a queued-but-uncommitted mutation fails with the
dirty-print error.  Queueing a deletion through a subsession marks only the
*global* session dirty (the call is forwarded), while `generate` checks the
calling instance's own flag (refactor-session.ts:531): the subsession's
`generate` succeeds and prints although the mutation is still pending in the
global session. -/
theorem c9_subsession_generate_succeeds_while_global_dirty :
    (subQueueDeletion ⟨baseSession, sub0⟩ stmtB).globalS.dirty = true
    ∧ (subQueueDeletion ⟨baseSession, sub0⟩ stmtB).globalS.deletions = [nodeId stmtB]
    ∧ subGenerate (subQueueDeletion ⟨baseSession, sub0⟩ stmtB) = .ok stmtB := by decide

/-- C9 as amended — the dirty guard is per-instance: on the session that
carries the dirty flag (the global session, which every queueing call marks)
`generate` fails with the dirty-print error while a mutation is queued and
succeeds again after `cleanup`; but a subsession's `generate` consults only
the subsession's own flag, which forwarded queueing never sets. -/
theorem c9_amended_dirty_guard_is_per_instance :
    (∀ (s : SessionState) (n : Node),
      generateS (queueDeletion s n) = .error (.refactorError dirtyPrintMsg))
    ∧ (∀ (s : SessionState) (n : Node),
      generateS (cleanup (queueDeletion s n))
        = .ok ((cleanup (queueDeletion s n)).nodes.headD nullNode))
    ∧ (∀ (w : GSub) (n : Node), subGenerate (subQueueDeletion w n) = generateS w.sub) := by
  refine ⟨fun s n => ?_, fun s n => ?_, fun w n => rfl⟩
  · simp [generateS, queueDeletion]
  · have h : (cleanup (queueDeletion s n)).dirty = false := cleanup_dirty _ rfl
    simp [generateS, h]

/-- C10 — constructor input validation: a root session (no parent session)
constructed from a node list always throws the `RefactorError` demanding a
source program or single node, whereas a single node is always accepted; a
subsession constructed from source text always throws (the source uses a
bare `Error` there), whereas a node list is accepted whenever the global
session has a root. -/
theorem c10_constructor_input_validation :
    (∀ (parse : String → Except String Node) (ns : List Node) (cfg : RefactorConfig),
      mkRootSession parse (.many ns) cfg
        = .error (.refactorError
          "Must initialize root session with a JavaScript source program (JS source or single Node)"))
    ∧ (∀ (g : SessionState) (text : String) (cfg : RefactorConfig),
      mkSubSession g (.source text) cfg
        = .error (.plainError "Can not initialize child RefactorSession with a new AST"))
    ∧ (∀ (parse : String → Except String Node) (n : Node) (cfg : RefactorConfig),
      isOkE (mkRootSession parse (.one n) cfg) = true)
    ∧ (∀ (g : SessionState) (r : Node) (ns : List Node) (cfg : RefactorConfig),
      g.rootNode = some r → isOkE (mkSubSession g (.many ns) cfg) = true) := by
  refine ⟨fun _ _ _ => rfl, fun _ _ _ => rfl, fun _ _ _ => rfl, fun g r ns cfg h => ?_⟩
  simp [mkSubSession, h, isOkE]

/-- C10 witness — the validation theorem applied to `baseSession` (whose
root is `script0`) and the selection `[B, C]`. -/
theorem c10_constructor_input_validation_witness :
    baseSession.rootNode = some script0
    ∧ isOkE (mkSubSession baseSession (.many [stmtB, stmtC]) {}) = true :=
  ⟨by decide, c10_constructor_input_validation.2.2.2 baseSession script0 [stmtB, stmtC] {}
    (by decide)⟩

end ShiftRefactor
